import Mathlib

/-!
# Verification of the baal fleet orchestrator against its specification

Shallow embedding of the orchestrator code of the `baal` repository:

* `src/baal_core/deployer.py` — CRN blacklist, CRN discovery/scoring
  (`get_available_crns`), instance creation (`create_instance`), allocation
  polling (`wait_for_allocation`).
* `src/baal/services/pool_manager.py` — warm VM pool (`VMPool`): startup
  recovery (`initialize`), `claim`, the replenish cycle (`_replenish_once` /
  `_provision_one`).
* `src/baal/services/deployer.py` — the deployer variant the pool is
  constructed with (relevant here for the arity of `prepare_vm`).

Network/SSH I/O is modelled by explicit oracles (functions giving the outcome
of each external call); Python floats are modelled by exact rationals `ℚ`;
monotonic-clock instants are modelled by `ℕ` seconds; Python dicts keyed by
strings are modelled by key-unique association lists; SQLite tables by lists
of rows.  Sleeps and log statements have no observable effect and are dropped.
-/

namespace Baal

/-! ## CRN blacklist (`src/baal_core/deployer.py` lines 42–100)

`self._crn_blacklist: dict[str, float]` maps CRN URL → expiry instant on the
monotonic clock.  `CRN_BLACKLIST_TTL = 600` seconds. -/

/-- `CRN_BLACKLIST_TTL = 600  # 10 minutes`. -/
def CRN_BLACKLIST_TTL : Nat := 600

/-- The blacklist dict `url → expiry` as a key-unique association list. -/
abbrev Blacklist : Type := List (String × Nat)

/-- Python dict assignment `d[url] = expiry`: replaces any existing binding. -/
def dictSet (bl : Blacklist) (url : String) (expiry : Nat) : Blacklist :=
  (url, expiry) :: bl.filter (fun p => p.1 ≠ url)

/-- Python dict lookup `d.get(url)`. -/
def dictGet (bl : Blacklist) (url : String) : Option Nat :=
  (bl.find? (fun p => p.1 = url)).map Prod.snd

/-- `_blacklist_crn`: `self._crn_blacklist[crn_url] = time.monotonic() + CRN_BLACKLIST_TTL`. -/
def blacklist_crn (bl : Blacklist) (now : Nat) (crnUrl : String) : Blacklist :=
  dictSet bl crnUrl (now + CRN_BLACKLIST_TTL)

/-- `_prune_blacklist`: delete every entry with `now >= expiry`. -/
def prune_blacklist (bl : Blacklist) (now : Nat) : Blacklist :=
  bl.filter (fun p => now < p.2)

/-- `_is_blacklisted`: absent → `False`; `now >= expiry` → delete entry and
`False`; else `True`.  Returns the answer together with the (lazily purged)
blacklist state. -/
def is_blacklisted (bl : Blacklist) (now : Nat) (crnUrl : String) : Bool × Blacklist :=
  match dictGet bl crnUrl with
  | none => (false, bl)
  | some expiry =>
    if expiry ≤ now then
      (false, bl.filter (fun p => p.1 ≠ crnUrl))
    else
      (true, bl)

lemma dictGet_dictSet_self (bl : Blacklist) (url : String) (e : Nat) :
    dictGet (dictSet bl url e) url = some e := by
  simp [dictGet, dictSet, List.find?]

lemma dictGet_filter_ne (bl : Blacklist) (url : String) :
    dictGet (bl.filter (fun p => p.1 ≠ url)) url = none := by
  have hfind : (bl.filter
      (fun p => p.1 ≠ url)).find? (fun p => p.1 = url) = none := by
    rw [List.find?_eq_none]
    intro p hp
    have := List.of_mem_filter hp
    simp only [decide_eq_true_eq] at this ⊢
    exact fun h => this h
  simp [dictGet, hfind]

/-! ## CRN discovery and scoring (`src/baal_core/deployer.py` lines 102–180)

`get_available_crns` fetches `crns.json`, keeps viable nodes, computes the
composite quality score, drops blacklisted endpoints and sorts by composite
score.  The fetched JSON array is modelled as a list of `RawNode` records; the
HTTP fetch itself (non-200 / exception → `[]`) is outside every claim. -/

/-- Live telemetry of one node (`node["system_usage"]`): `active` flag,
`cpu.count` (JSON integer, default 1 handled by the caller), `load_average.load5`
and `mem.available_kB`. -/
structure Usage where
  active : Bool
  cpuCount : Nat
  load5 : ℚ
  availableKB : ℚ
deriving DecidableEq, Repr

/-- One fetched node descriptor, with the fields `get_available_crns` reads:
`ipv6_check.host`/`.vm`, `qemu_support`, `system_usage` (`none` models a
missing or falsy value), `score`, `hash`, `name`, `address`. -/
structure RawNode where
  hash : String
  name : String
  address : String
  ipv6Host : Bool
  ipv6Vm : Bool
  qemuSupport : Bool
  usage : Option Usage
  score : ℚ
deriving DecidableEq, Repr

/-- A scored candidate, the dict appended to `crns` in the loop.  (Python
rounds `mem_avail_gb` to one decimal for display only; the rounding touches no
claim and is omitted — `composite` uses the unrounded value, as in the code.) -/
structure Crn where
  hash : String
  name : String
  url : String
  score : ℚ
  composite : ℚ
  memAvailGb : ℚ
deriving DecidableEq, Repr

/-- `node.get("address", "").rstrip("/")`. -/
def rstripSlash (s : String) : String := s.dropRightWhile (· = '/')

/-- The scoring step of the loop body (reached only for viable nodes).  Python
float literals `0.40`, `0.35`, `0.25`, `64.0` are modelled as exact rationals:

    cpu_idle = 1.0 - min(load5 / max(cpu_count, 1), 1.0)
    mem_avail_gb = mem.get("available_kB", 0) / 1_048_576
    mem_score = min(mem_avail_gb / 64.0, 1.0)
    node_score_norm = min(max(node_score, 0), 1.0)
    composite = 0.40 * node_score_norm + 0.35 * mem_score + 0.25 * cpu_idle -/
def scoreNode (n : RawNode) (u : Usage) : Crn :=
  let cpuIdle : ℚ := 1 - min (u.load5 / (max u.cpuCount 1 : ℕ)) 1
  let memAvailGb : ℚ := u.availableKB / 1048576
  let memScore : ℚ := min (memAvailGb / 64) 1
  let nodeScoreNorm : ℚ := min (max n.score 0) 1
  { hash := n.hash
    name := n.name
    url := rstripSlash n.address
    score := n.score
    composite := (40 / 100) * nodeScoreNorm + (35 / 100) * memScore + (25 / 100) * cpuIdle
    memAvailGb := memAvailGb }

/-- The filter of the loop body: the chain of `continue` guards (both IPv6
checks, `qemu_support`, live `active` telemetry, `score >= 0.3`), yielding the
scored candidate for nodes that pass. -/
def screenNode (n : RawNode) : Option Crn :=
  if ¬(n.ipv6Host ∧ n.ipv6Vm) then none
  else if ¬n.qemuSupport then none
  else
    match n.usage with
    | none => none
    | some u =>
      if ¬u.active then none
      else if n.score < 3 / 10 then none
      else some (scoreNode n u)

/-- The blacklist-dropping list comprehension
`[c for c in crns if not self._is_blacklisted(c["url"])]`, threading the
(lazily purging) blacklist state left to right. -/
def dropBlacklisted (now : Nat) : Blacklist → List Crn → List Crn × Blacklist
  | bl, [] => ([], bl)
  | bl, c :: rest =>
    let r := is_blacklisted bl now c.url
    let tail := dropBlacklisted now r.2 rest
    (if r.1 then tail.1 else c :: tail.1, tail.2)

/-- One step of the stable descending sort by `composite`: insert a
later-fetched candidate after every already-placed candidate of greater or
equal composite score. -/
def insertDesc (c : Crn) : List Crn → List Crn
  | [] => [c]
  | d :: rest =>
    if c.composite ≤ d.composite then d :: insertDesc c rest else c :: d :: rest

/-- `crns.sort(key=lambda c: -c["composite"])`: Python's sort is stable and
ascending in the key, i.e. the unique stable descending-by-`composite`
permutation, realised here as a stable insertion sort. -/
def sortDesc (l : List Crn) : List Crn := l.foldl (fun acc c => insertDesc c acc) []

/-- `get_available_crns` on an already-fetched node list: screen and score,
prune the blacklist, drop blacklisted candidates, sort by composite score
descending.  Returns the candidates and the final blacklist state. -/
def get_available_crns (nodes : List RawNode) (bl : Blacklist) (now : Nat) :
    List Crn × Blacklist :=
  let scored := nodes.filterMap screenNode
  let dropped := dropBlacklisted now (prune_blacklist bl now) scored
  (sortDesc dropped.1, dropped.2)

/-! ### Ordering, stability and membership lemmas for the candidate sort -/

/-- Descending order by composite score. -/
def SortedByComposite (l : List Crn) : Prop :=
  l.Pairwise (fun a b => b.composite ≤ a.composite)

lemma mem_insertDesc (x c : Crn) (l : List Crn) :
    x ∈ insertDesc c l ↔ x = c ∨ x ∈ l := by
  induction l with
  | nil => simp [insertDesc]
  | cons d rest ih =>
    simp only [insertDesc]
    by_cases h : c.composite ≤ d.composite
    · simp only [if_pos h, List.mem_cons, ih]
      tauto
    · simp only [if_neg h, List.mem_cons]

lemma sortedByComposite_insertDesc (c : Crn) (l : List Crn)
    (hl : SortedByComposite l) : SortedByComposite (insertDesc c l) := by
  induction l with
  | nil => simp [insertDesc, SortedByComposite]
  | cons d rest ih =>
    rw [SortedByComposite, List.pairwise_cons] at hl
    obtain ⟨hd, hrest⟩ := hl
    simp only [insertDesc]
    by_cases h : c.composite ≤ d.composite
    · rw [if_pos h]
      refine List.Pairwise.cons ?_ (ih hrest)
      intro x hx
      rcases (mem_insertDesc x c rest).1 hx with rfl | hx
      · exact h
      · exact hd x hx
    · rw [if_neg h]
      refine List.Pairwise.cons ?_ (List.Pairwise.cons hd hrest)
      intro x hx
      rcases List.mem_cons.1 hx with rfl | hx
      · exact le_of_lt (lt_of_not_le h)
      · exact le_trans (hd x hx) (le_of_lt (lt_of_not_le h))

lemma sortedByComposite_foldl (l acc : List Crn) (hacc : SortedByComposite acc) :
    SortedByComposite (l.foldl (fun a c => insertDesc c a) acc) := by
  induction l generalizing acc with
  | nil => exact hacc
  | cons c rest ih => exact ih _ (sortedByComposite_insertDesc c acc hacc)

lemma sortedByComposite_sortDesc (l : List Crn) : SortedByComposite (sortDesc l) :=
  sortedByComposite_foldl l [] (by simp [SortedByComposite])

lemma mem_foldl_insertDesc (x : Crn) (l acc : List Crn) :
    x ∈ l.foldl (fun a c => insertDesc c a) acc ↔ x ∈ acc ∨ x ∈ l := by
  induction l generalizing acc with
  | nil => simp
  | cons c rest ih =>
    simp only [List.foldl_cons]
    rw [ih, mem_insertDesc]
    simp only [List.mem_cons]
    tauto

lemma mem_sortDesc (x : Crn) (l : List Crn) : x ∈ sortDesc l ↔ x ∈ l := by
  rw [sortDesc, mem_foldl_insertDesc]; simp

lemma filter_insertDesc (q : ℚ) (c : Crn) (l : List Crn) (hl : SortedByComposite l) :
    (insertDesc c l).filter (fun d => d.composite = q) =
      if c.composite = q then l.filter (fun d => d.composite = q) ++ [c]
      else l.filter (fun d => d.composite = q) := by
  induction l with
  | nil => by_cases h : c.composite = q <;> simp [insertDesc, h]
  | cons d rest ih =>
    rw [SortedByComposite, List.pairwise_cons] at hl
    obtain ⟨hd, hrest⟩ := hl
    simp only [insertDesc]
    by_cases h : c.composite ≤ d.composite
    · rw [if_pos h]
      by_cases hdq : d.composite = q <;> by_cases hcq : c.composite = q <;>
        simp [List.filter_cons, hdq, hcq, ih hrest]
    · rw [if_neg h]
      push_neg at h
      by_cases hcq : c.composite = q
      · have hnil : (d :: rest).filter (fun x => decide (x.composite = q)) = [] := by
          rw [List.filter_eq_nil_iff]
          intro x hx
          rcases List.mem_cons.1 hx with rfl | hx
          · simp only [decide_eq_true_eq]
            intro hxq
            rw [hxq, ← hcq] at h
            exact lt_irrefl _ h
          · simp only [decide_eq_true_eq]
            intro hxq
            have := hd x hx
            rw [hxq, ← hcq] at this
            exact absurd this (not_le.2 h)
        simp [List.filter_cons, hcq, hnil]
      · simp [List.filter_cons, hcq]

lemma filter_foldl_insertDesc (q : ℚ) (l acc : List Crn) (hacc : SortedByComposite acc) :
    (l.foldl (fun a c => insertDesc c a) acc).filter (fun d => d.composite = q) =
      acc.filter (fun d => d.composite = q) ++ l.filter (fun d => d.composite = q) := by
  induction l generalizing acc with
  | nil => simp
  | cons c rest ih =>
    simp only [List.foldl_cons]
    rw [ih _ (sortedByComposite_insertDesc c acc hacc),
      filter_insertDesc q c acc hacc]
    by_cases hcq : c.composite = q <;> simp [List.filter_cons, hcq]

lemma filter_sortDesc (q : ℚ) (l : List Crn) :
    (sortDesc l).filter (fun d => d.composite = q) =
      l.filter (fun d => d.composite = q) := by
  rw [sortDesc, filter_foldl_insertDesc q l [] (by simp [SortedByComposite])]
  simp

/-! ### Blacklist well-formedness (Python dicts have unique keys) -/

/-- A blacklist state reachable from the empty dict: keys are unique. -/
def BlWF (bl : Blacklist) : Prop :=
  (bl.map Prod.fst).Nodup

lemma dictGet_eq_some_iff (bl : Blacklist) (url : String) (e : Nat) (h : BlWF bl) :
    dictGet bl url = some e ↔ (url, e) ∈ bl := by
  induction bl with
  | nil => simp [dictGet]
  | cons p rest ih =>
    have h' : (p.1 :: rest.map Prod.fst).Nodup := h
    rw [List.nodup_cons] at h'
    by_cases hp : p.1 = url
    · have hfind : dictGet (p :: rest : List (String × Nat)) url = some p.2 := by
        simp [dictGet, List.find?, hp]
      rw [hfind]
      constructor
      · intro he
        have : p.2 = e := by injection he
        rw [List.mem_cons]
        left
        rw [← hp, ← this]
      · intro hmem
        rcases List.mem_cons.1 hmem with heq | hmem'
        · rw [← heq] at hp ⊢
        · exfalso
          apply h'.1
          rw [hp]
          exact List.mem_map.2 ⟨(url, e), hmem', rfl⟩
    · have hfind : dictGet (p :: rest : List (String × Nat)) url = dictGet rest url := by
        simp [dictGet, List.find?, hp]
      rw [hfind, ih h'.2, List.mem_cons]
      constructor
      · exact Or.inr
      · rintro (heq | hmem')
        · exact absurd (congrArg Prod.fst heq).symm hp
        · exact hmem'

lemma blWF_key_unique (bl : Blacklist) (url : String) (a b : Nat) (h : BlWF bl)
    (ha : (url, a) ∈ bl)
    (hb : (url, b) ∈ bl) : a = b := by
  have h1 := (dictGet_eq_some_iff bl url a h).2 ha
  have h2 := (dictGet_eq_some_iff bl url b h).2 hb
  rw [h1] at h2
  injection h2

lemma blWF_prune (bl : Blacklist) (now : Nat) : BlWF bl → BlWF (prune_blacklist bl now) := by
  intro h
  exact List.Nodup.sublist (List.Sublist.map Prod.fst (List.filter_sublist _)) h

lemma mem_prune (bl : Blacklist) (now : Nat) :
    ∀ p ∈ prune_blacklist bl now, now < p.2 := by
  intro p hp
  have := List.of_mem_filter hp
  exact of_decide_eq_true this

lemma dictGet_mem (bl : Blacklist) (url : String) (e : Nat)
    (h : dictGet bl url = some e) : (url, e) ∈ bl := by
  rw [dictGet] at h
  cases hfind : bl.find? (fun p => p.1 = url) with
  | none => rw [hfind] at h; simp at h
  | some p =>
    rw [hfind] at h
    have hp2 : p.2 = e := by injection h
    have hmem := List.mem_of_find?_eq_some hfind
    have hp1 := List.find?_some hfind
    simp only [decide_eq_true_eq] at hp1
    rw [← hp1, ← hp2]
    exact hmem

lemma dictGet_none_of_no_key (bl : Blacklist) (url : String)
    (h : ∀ p ∈ bl, p.1 ≠ url) : dictGet bl url = none := by
  have hfind : bl.find? (fun p => p.1 = url) = none := by
    rw [List.find?_eq_none]
    intro p hp
    simp only [decide_eq_true_eq]
    exact h p hp
  simp [dictGet, hfind]

lemma is_blacklisted_prune (bl : Blacklist) (now : Nat) (url : String) (h : BlWF bl) :
    (is_blacklisted (prune_blacklist bl now) now url).1 =
      (is_blacklisted bl now url).1 := by
  cases hget : dictGet bl url with
  | none =>
    have hget' : dictGet (prune_blacklist bl now) url = none := by
      apply dictGet_none_of_no_key
      intro p hp hpu
      have hmem : p ∈ bl := List.mem_of_mem_filter hp
      have : dictGet bl url = some p.2 := by
        rw [dictGet_eq_some_iff bl url p.2 h, ← hpu]
        exact hmem
      rw [hget] at this
      exact Option.noConfusion this
    simp [is_blacklisted, hget, hget']
  | some e =>
    have hmem : (url, e) ∈ bl :=
      (dictGet_eq_some_iff bl url e h).1 hget
    by_cases he : e ≤ now
    · have hget' : dictGet (prune_blacklist bl now) url = none := by
        apply dictGet_none_of_no_key
        intro p hp hpu
        have hpmem : p ∈ bl := List.mem_of_mem_filter hp
        have hlt : now < p.2 := mem_prune bl now p hp
        have hpe : p.2 = e := by
          apply blWF_key_unique bl url p.2 e h _ hmem
          rw [← hpu]
          exact hpmem
        rw [hpe] at hlt
        exact absurd he (not_le.2 hlt)
      simp [is_blacklisted, hget, hget', he]
    · have hwf' : BlWF (prune_blacklist bl now) := blWF_prune bl now h
      have hmem' : (url, e) ∈ prune_blacklist bl now := by
        apply List.mem_filter.2
        refine ⟨hmem, ?_⟩
        simp only [decide_eq_true_eq]
        exact not_le.1 he
      have hget' : dictGet (prune_blacklist bl now) url = some e :=
        (dictGet_eq_some_iff _ url e hwf').2 hmem'
      simp [is_blacklisted, hget, hget', he]

lemma is_blacklisted_snd_of_fresh (bl : Blacklist) (now : Nat) (url : String)
    (h : ∀ p ∈ bl, now < p.2) :
    (is_blacklisted bl now url).2 = bl := by
  unfold is_blacklisted
  cases hget : dictGet bl url with
  | none => rfl
  | some e =>
    have hmem := dictGet_mem bl url e hget
    have := h _ hmem
    simp [Nat.not_le.2 this]

lemma dropBlacklisted_no_purge (now : Nat) (bl : Blacklist) (l : List Crn)
    (h : ∀ p ∈ bl, now < p.2) :
    dropBlacklisted now bl l =
      (l.filter (fun c => !(is_blacklisted bl now c.url).1), bl) := by
  induction l with
  | nil => simp [dropBlacklisted]
  | cons c rest ih =>
    have h2 := is_blacklisted_snd_of_fresh bl now c.url h
    simp only [dropBlacklisted, h2, ih, List.filter_cons]
    cases hb : (is_blacklisted bl now c.url).1 <;> simp [hb]

/-! ### Concrete nodes for counterexamples and witnesses

`usageTie` gives memory score `1` (`available_kB = 64·1048576`) and CPU idle
`1` (`load5 = 0`), so a node's composite is `0.40·min(max(score,0),1) + 0.60`;
any two such nodes with `score ≥ 1` tie at composite `1`. -/

def usageTie : Usage :=
  { active := true, cpuCount := 1, load5 := 0, availableKB := 67108864 }

def nodeA : RawNode :=
  { hash := "ha", name := "crn-a", address := "https://crn-a.example",
    ipv6Host := true, ipv6Vm := true, qemuSupport := true,
    usage := some usageTie, score := 1 }

def nodeB : RawNode :=
  { hash := "hb", name := "crn-b", address := "https://crn-b.example",
    ipv6Host := true, ipv6Vm := true, qemuSupport := true,
    usage := some usageTie, score := 2 }

lemma screenNode_nodeA : screenNode nodeA = some (scoreNode nodeA usageTie) := by
  norm_num [screenNode, nodeA, usageTie]

lemma screenNode_nodeB : screenNode nodeB = some (scoreNode nodeB usageTie) := by
  norm_num [screenNode, nodeB, usageTie]

lemma composite_nodeA : (scoreNode nodeA usageTie).composite = 1 := by
  simp [scoreNode, nodeA, usageTie]; norm_num

lemma composite_nodeB : (scoreNode nodeB usageTie).composite = 1 := by
  simp [scoreNode, nodeB, usageTie]; norm_num

/-- The tie pair in fetch order `[nodeA, nodeB]` comes out in fetch order. -/
lemma crns_nodeA_nodeB :
    (get_available_crns [nodeA, nodeB] [] 0).1 =
      [scoreNode nodeA usageTie, scoreNode nodeB usageTie] := by
  rw [get_available_crns]
  simp only [List.filterMap_cons, List.filterMap_nil, screenNode_nodeA,
    screenNode_nodeB, prune_blacklist, List.filter_nil, dropBlacklisted,
    is_blacklisted, dictGet, List.find?_nil, Option.map_none, sortDesc,
    List.foldl_cons, List.foldl_nil, insertDesc]
  norm_num [insertDesc, composite_nodeA, composite_nodeB]

lemma crns_nodeB_only :
    (get_available_crns [nodeB] [] 0).1 = [scoreNode nodeB usageTie] := by
  rw [get_available_crns]
  simp only [List.filterMap_cons, List.filterMap_nil, screenNode_nodeB,
    prune_blacklist, List.filter_nil, dropBlacklisted, is_blacklisted, dictGet,
    List.find?_nil, Option.map_none, sortDesc, List.foldl_cons, List.foldl_nil,
    insertDesc]
  simp [insertDesc]

/-- Characterisation of the viability screen. -/
lemma screenNode_some_iff (n : RawNode) (c : Crn) :
    screenNode n = some c ↔
      n.ipv6Host = true ∧ n.ipv6Vm = true ∧ n.qemuSupport = true ∧
      ∃ u, n.usage = some u ∧ u.active = true ∧ 3 / 10 ≤ n.score ∧
        c = scoreNode n u := by
  rw [screenNode]
  cases hu : n.usage with
  | none =>
    split_ifs <;> simp_all <;> tauto
  | some u =>
    simp only
    split_ifs with h1 h2 h3 h4 <;> simp_all [not_lt] <;> tauto

/-! ## Instance creation (`src/baal_core/deployer.py` lines 182–332)

`create_instance` probes the top candidates, creates the instance pinned to
the selected CRN, verifies propagation (log-only), then asks the CRN to start
the instance up to 3 times.  Outcomes of the network calls are supplied by a
`CreateEnv` oracle; `crns` stands for the value `get_available_crns` returned
in this run. -/

/-- The result dict (`status` / `error` / `instance_hash` / `crn_url`), with
absent keys as `none`. -/
structure PyResult where
  status : String
  error : Option String := none
  instance_hash : Option String := none
  crn_url : Option String := none
deriving DecidableEq, Repr

/-- Outcomes of the external calls of one `create_instance` run. -/
structure CreateEnv where
  /-- `ALEPH_SDK_AVAILABLE` -/
  sdkAvailable : Bool
  /-- `self._account` is set -/
  hasAccount : Bool
  /-- what `await self.get_available_crns()` returned -/
  crns : List Crn
  /-- probe `GET {url}/` by normalized URL: `some status`, or `none` for an
  exception -/
  probe : String → Option Nat
  /-- `client.create_instance(...)`: `some (str(message.item_hash))`, or
  `none` for an exception -/
  createResult : Option String
  /-- `vm_client.start_instance` on attempt `i`: `some status`, or `none` for
  a timeout/exception -/
  startStatus : Nat → Option Nat

/-- URL normalisation before the probe:
`if not url.startswith("http"): url = f"https://{url}"` then `url.rstrip("/")`. -/
def normalizeUrl (url : String) : String :=
  rstripSlash (if url.startsWith "http" then url else "https://" ++ url)

/-- `max_start_attempts = 3`. -/
def MAX_START_ATTEMPTS : Nat := 3

/-- The probe loop over `crns[:5]`: first candidate whose probe returns a
status `< 500` is selected; a probe exception blacklists the (normalized)
candidate URL and moves on.  A `>= 500` status skips without blacklisting. -/
def probeSelect (probe : String → Option Nat) (now : Nat) :
    Blacklist → List Crn → Option (Crn × String) × Blacklist
  | bl, [] => (none, bl)
  | bl, c :: rest =>
    let url := normalizeUrl c.url
    match probe url with
    | some status =>
      if status < 500 then (some (c, url), bl) else probeSelect probe now bl rest
    | none => probeSelect probe now (blacklist_crn bl now url) rest

/-- `create_instance`, returning the result dict and the final blacklist.
The propagation-verification loop (lines 262–279) only logs and sleeps and is
omitted; time is frozen at `now` (sleeps are instantaneous in the model). -/
def create_instance (env : CreateEnv) (bl : Blacklist) (now : Nat) :
    PyResult × Blacklist :=
  if ¬env.sdkAvailable then
    ({ status := "error", error := some "aleph-sdk-python not installed" }, bl)
  else if ¬env.hasAccount then
    ({ status := "error", error := some "No Aleph account configured" }, bl)
  else if env.crns.isEmpty then
    ({ status := "error", error := some "No CRNs available" }, bl)
  else
    let sel := probeSelect env.probe now bl (env.crns.take 5)
    match sel.1 with
    | none => ({ status := "error", error := some "No reachable CRNs found" }, sel.2)
    | some (_, crnUrl) =>
      match env.createResult with
      | none =>
        ({ status := "error", error := some "Instance creation failed" },
          blacklist_crn sel.2 now crnUrl)
      | some instanceHash =>
        if (List.range MAX_START_ATTEMPTS).any
            (fun i => env.startStatus i == some 200) then
          ({ status := "success", instance_hash := some instanceHash,
             crn_url := some crnUrl }, sel.2)
        else
          let bl2 := blacklist_crn sel.2 now crnUrl
          if instanceHash ≠ "" then
            ({ status := "error",
               error := some "CRN failed to start instance after 3 attempts",
               instance_hash := some instanceHash }, bl2)
          else
            ({ status := "error", error := some "Instance creation failed" }, bl2)

lemma is_blacklisted_after_add (bl : Blacklist) (now : Nat) (url : String) :
    (is_blacklisted (blacklist_crn bl now url) now url).1 = true := by
  simp [is_blacklisted, blacklist_crn, dictGet_dictSet_self, CRN_BLACKLIST_TTL]

/-! ## Allocation polling (`src/baal_core/deployer.py` lines 334–373)

`wait_for_allocation` loops `attempt in range(retries)`: on every attempt with
`attempt > 0 and attempt % 4 == 0` it re-sends the start notification (result
ignored, exceptions swallowed), then runs one allocation check, returning the
result on success or sleeping `delay` seconds otherwise; after the loop it
returns `None`.  The observable behaviour is recorded as an event trace. -/

/-- `{"vm_ipv4": ..., "ssh_port": ...}`. -/
structure Alloc where
  vmIpv4 : String
  sshPort : Nat
deriving DecidableEq, Repr

/-- Observable events of the polling loop, in order. -/
inductive PollEvent where
  | notifyCrn (attempt : Nat)
  | checkAlloc (attempt : Nat)
  | sleep (seconds : Nat)
deriving DecidableEq, Repr

def isCheckEv : PollEvent → Bool
  | .checkAlloc _ => true
  | _ => false

def isSleepEv : PollEvent → Bool
  | .sleep _ => true
  | _ => false

/-- The re-notification of the loop head: `[PollEvent.notifyCrn attempt]` when
`attempt > 0 and attempt % 4 == 0`, nothing otherwise.  (The notification's own
outcome is ignored; exceptions are swallowed.) -/
def notifyEvs (attempt : Nat) : List PollEvent :=
  if 0 < attempt ∧ attempt % 4 = 0 then [.notifyCrn attempt] else []

/-- The loop body from attempt `attempt` with `remaining` iterations left;
`check i` is what `_check_allocation` yields on attempt `i`. -/
def wait_go (check : Nat → Option Alloc) (delay : Nat) :
    Nat → Nat → Option Alloc × List PollEvent
  | 0, _ => (none, [])
  | remaining + 1, attempt =>
    match check attempt with
    | some r => (some r, notifyEvs attempt ++ [.checkAlloc attempt])
    | none =>
      ((wait_go check delay remaining (attempt + 1)).1,
        notifyEvs attempt ++ [.checkAlloc attempt, .sleep delay]
          ++ (wait_go check delay remaining (attempt + 1)).2)

/-- `wait_for_allocation(instance_hash, crn_url, retries, delay)`: the loop
from attempt 0.  Returns `some {vm_ipv4, ssh_port}` or the timeout sentinel
`none`, together with the event trace. -/
def wait_for_allocation (check : Nat → Option Alloc) (retries delay : Nat) :
    Option Alloc × List PollEvent :=
  wait_go check delay retries 0

lemma notifyCrn_mem_notifyEvs (a b : Nat) :
    PollEvent.notifyCrn b ∈ notifyEvs a ↔ (b = a ∧ 0 < a ∧ a % 4 = 0) := by
  unfold notifyEvs
  by_cases h : 0 < a ∧ a % 4 = 0
  · simp [h.1, h.2, h]
  · rw [if_neg h]
    simp only [List.not_mem_nil, false_iff]
    rintro ⟨rfl, hp, h4⟩
    exact h ⟨hp, h4⟩

lemma checkAlloc_not_mem_notifyEvs (a b : Nat) :
    PollEvent.checkAlloc b ∉ notifyEvs a := by
  unfold notifyEvs; split <;> simp

lemma sleep_not_mem_notifyEvs (a d : Nat) :
    PollEvent.sleep d ∉ notifyEvs a := by
  unfold notifyEvs; split <;> simp

lemma countP_isCheckEv_notifyEvs (a : Nat) : (notifyEvs a).countP isCheckEv = 0 := by
  unfold notifyEvs; split <;> simp [isCheckEv]

lemma countP_isSleepEv_notifyEvs (a : Nat) : (notifyEvs a).countP isSleepEv = 0 := by
  unfold notifyEvs; split <;> simp [isSleepEv]

lemma wait_go_none_eq (check : Nat → Option Alloc) (delay m att : Nat)
    (hc : check att = none) :
    wait_go check delay (m + 1) att =
      ((wait_go check delay m (att + 1)).1,
        notifyEvs att ++ [.checkAlloc att, .sleep delay]
          ++ (wait_go check delay m (att + 1)).2) := by
  simp [wait_go, hc]

lemma wait_go_some_eq (check : Nat → Option Alloc) (delay m att : Nat) (r : Alloc)
    (hc : check att = some r) :
    wait_go check delay (m + 1) att = (some r, notifyEvs att ++ [.checkAlloc att]) := by
  simp [wait_go, hc]

lemma wait_go_all_none (check : Nat → Option Alloc) (delay rem att : Nat)
    (h : ∀ i, att ≤ i → i < att + rem → check i = none) :
    (wait_go check delay rem att).1 = none ∧
    ((wait_go check delay rem att).2.countP isCheckEv) = rem ∧
    ((wait_go check delay rem att).2.countP isSleepEv) = rem ∧
    (∀ d, PollEvent.sleep d ∈ (wait_go check delay rem att).2 → d = delay) := by
  induction rem generalizing att with
  | zero => simp [wait_go]
  | succ m ih =>
    have hatt : check att = none := h att le_rfl (by omega)
    obtain ⟨ih1, ih2, ih3, ih4⟩ := ih (att + 1) (fun i h1 h2 => h i (by omega) (by omega))
    rw [wait_go_none_eq check delay m att hatt]
    refine ⟨ih1, ?_, ?_, ?_⟩
    · rw [List.countP_append, List.countP_append, countP_isCheckEv_notifyEvs, ih2]
      simp [List.countP_cons, isCheckEv]
      omega
    · rw [List.countP_append, List.countP_append, countP_isSleepEv_notifyEvs, ih3]
      simp [List.countP_cons, isSleepEv]
      omega
    · intro d hd
      rcases List.mem_append.1 hd with hd | hd
      · rcases List.mem_append.1 hd with hd | hd
        · exact absurd hd (sleep_not_mem_notifyEvs att d)
        · rcases List.mem_cons.1 hd with h1 | h1
          · exact PollEvent.noConfusion h1
          · have h2 := List.mem_singleton.1 h1
            injection h2
      · exact ih4 d hd

lemma wait_go_first_success (check : Nat → Option Alloc) (delay rem att k : Nat)
    (r : Alloc) (hk : att ≤ k) (hkr : k < att + rem) (hs : check k = some r)
    (hnone : ∀ i, att ≤ i → i < k → check i = none) :
    (wait_go check delay rem att).1 = some r ∧
    ((wait_go check delay rem att).2.countP isCheckEv) = k - att + 1 := by
  induction rem generalizing att with
  | zero => exact absurd hkr (by omega)
  | succ m ih =>
    by_cases hattk : att = k
    · subst hattk
      rw [wait_go_some_eq check delay m att r hs]
      refine ⟨rfl, ?_⟩
      rw [List.countP_append, countP_isCheckEv_notifyEvs]
      simp [List.countP_cons, isCheckEv]
    · have hx : check att = none := hnone att le_rfl (by omega)
      obtain ⟨ih1, ih2⟩ := ih (att + 1) (by omega) (by omega)
        (fun i h1 h2 => hnone i (by omega) h2)
      rw [wait_go_none_eq check delay m att hx]
      refine ⟨ih1, ?_⟩
      rw [List.countP_append, List.countP_append, countP_isCheckEv_notifyEvs, ih2]
      simp [List.countP_cons, List.countP_nil, isCheckEv]
      omega

lemma wait_go_notify_iff (check : Nat → Option Alloc) (delay rem att a : Nat) :
    PollEvent.notifyCrn a ∈ (wait_go check delay rem att).2 ↔
      (a % 4 = 0 ∧ 0 < a ∧
        PollEvent.checkAlloc a ∈ (wait_go check delay rem att).2) := by
  induction rem generalizing att with
  | zero => simp [wait_go]
  | succ m ih =>
    cases hc : check att with
    | some r =>
      rw [wait_go_some_eq check delay m att r hc]
      constructor
      · intro h'
        rcases List.mem_append.1 h' with h' | h'
        · obtain ⟨rfl, hp, h4⟩ := (notifyCrn_mem_notifyEvs att a).1 h'
          exact ⟨h4, hp, List.mem_append.2 (Or.inr (List.mem_singleton.2 rfl))⟩
        · have := List.mem_singleton.1 h'
          exact PollEvent.noConfusion this
      · rintro ⟨h4, hp, hC⟩
        rcases List.mem_append.1 hC with hC | hC
        · exact absurd hC (checkAlloc_not_mem_notifyEvs att a)
        · have ha : a = att := by
            have := List.mem_singleton.1 hC
            injection this
          subst ha
          exact List.mem_append.2 (Or.inl ((notifyCrn_mem_notifyEvs a a).2 ⟨rfl, hp, h4⟩))
    | none =>
      rw [wait_go_none_eq check delay m att hc]
      constructor
      · intro h'
        rcases List.mem_append.1 h' with h' | h'
        · rcases List.mem_append.1 h' with h' | h'
          · obtain ⟨rfl, hp, h4⟩ := (notifyCrn_mem_notifyEvs att a).1 h'
            refine ⟨h4, hp, List.mem_append.2 (Or.inl ?_)⟩
            exact List.mem_append.2 (Or.inr (List.mem_cons.2 (Or.inl rfl)))
          · rcases List.mem_cons.1 h' with h1 | h1
            · exact PollEvent.noConfusion h1
            · have := List.mem_singleton.1 h1
              exact PollEvent.noConfusion this
        · obtain ⟨h4, hp, hC⟩ := (ih (att + 1)).1 h'
          exact ⟨h4, hp, List.mem_append.2 (Or.inr hC)⟩
      · rintro ⟨h4, hp, hC⟩
        rcases List.mem_append.1 hC with hC | hC
        · rcases List.mem_append.1 hC with hC | hC
          · exact absurd hC (checkAlloc_not_mem_notifyEvs att a)
          · rcases List.mem_cons.1 hC with h1 | h1
            · have ha : a = att := by injection h1
              subst ha
              refine List.mem_append.2 (Or.inl (List.mem_append.2 (Or.inl ?_)))
              exact (notifyCrn_mem_notifyEvs a a).2 ⟨rfl, hp, h4⟩
            · have := List.mem_singleton.1 h1
              exact PollEvent.noConfusion this
        · exact List.mem_append.2 (Or.inr ((ih (att + 1)).2 ⟨h4, hp, hC⟩))

/-- A concrete reachable candidate for the `create_instance` witness. -/
def crnX : Crn :=
  { hash := "hx", name := "crn-x", url := "https://crn-x.example",
    score := 1, composite := 1, memAvailGb := 64 }

/-- A concrete `create_instance` run: one candidate, probe OK, creation
succeeds with hash "abc123", every start attempt returns HTTP 503. -/
def envC1 : CreateEnv :=
  { sdkAvailable := true, hasAccount := true, crns := [crnX],
    probe := fun _ => some 200, createResult := some "abc123",
    startStatus := fun _ => some 503 }

/-! ## Warm VM pool (`src/baal/services/pool_manager.py`)

The SQLite table `vm_pool` is modelled as a list of rows in rowid order.
`created_at` ISO-8601 text timestamps (whose lexicographic order is
chronological) are modelled as `ℕ`.  The pool is constructed in
`src/baal/main.py` with the `AlephDeployer` of `src/baal/services/deployer.py`. -/

/-- `status: 'provisioning', 'warm', 'claimed', 'deployed', 'failed'`. -/
inductive PoolStatus where
  | provisioning
  | warm
  | claimed
  | deployed
  | failed
deriving DecidableEq, Repr

/-- One row of the `vm_pool` table. -/
structure PoolRow where
  id : Nat
  instance_hash : String
  vm_ip : String
  vm_url : String
  crn_url : String
  ssh_port : Nat
  created_at : Nat
  claimed_at : Option Nat
  agent_id : Option Nat
  status : PoolStatus
deriving DecidableEq, Repr

/-- The `PooledVM` dataclass returned by `claim` (it has no status field). -/
structure PooledVM where
  id : Nat
  instance_hash : String
  vm_ip : String
  vm_url : String
  crn_url : String
  ssh_port : Nat
  created_at : Nat
  claimed_at : Option Nat := none
  agent_id : Option Nat := none
deriving DecidableEq, Repr

/-- `initialize` on an existing store (`CREATE TABLE IF NOT EXISTS` and the
index are no-ops on the rows): first
`UPDATE vm_pool SET status='warm', claimed_at=NULL, agent_id=NULL WHERE status='claimed'`,
then `DELETE FROM vm_pool WHERE status='provisioning'`. -/
def poolInit (rows : List PoolRow) : List PoolRow :=
  (rows.map (fun r =>
    if r.status = .claimed then
      { r with status := .warm, claimed_at := none, agent_id := none }
    else r)).filter (fun r => r.status ≠ .provisioning)

/-- `SELECT * FROM vm_pool WHERE status='warm' ORDER BY created_at ASC LIMIT 1`:
the first row (in table order) of minimal `created_at` among the given rows. -/
def argminCreated : List PoolRow → Option PoolRow
  | [] => none
  | r :: rest =>
    match argminCreated rest with
    | none => some r
    | some m => if r.created_at ≤ m.created_at then some r else some m

/-- `claim()`: under the pool lock, select the oldest `warm` row; if none,
return `None` and leave the store unchanged; otherwise
`UPDATE ... SET status='claimed', claimed_at=now WHERE id=?` and return the
corresponding `PooledVM` with `claimed_at = now`. -/
def claim (rows : List PoolRow) (now : Nat) : Option PooledVM × List PoolRow :=
  match argminCreated (rows.filter (fun r => r.status = .warm)) with
  | none => (none, rows)
  | some row =>
    (some { id := row.id, instance_hash := row.instance_hash, vm_ip := row.vm_ip,
            vm_url := row.vm_url, crn_url := row.crn_url, ssh_port := row.ssh_port,
            created_at := row.created_at, claimed_at := some now },
      rows.map (fun r =>
        if r.id = row.id then { r with status := .claimed, claimed_at := some now }
        else r))

/-- The positional parameters of `AlephDeployer.prepare_vm` after `self`
(`src/baal/services/deployer.py` line 628: `async def prepare_vm(self, vm_ip,
ssh_port)`). -/
def prepare_vm_params : List String := ["vm_ip", "ssh_port"]

/-- The number of positional arguments `VMPool._provision_one` passes
(`src/baal/services/pool_manager.py` line 311:
`await self.deployer.prepare_vm(vm_ip, ssh_port, fqdn)`). -/
def provision_prepare_vm_args : Nat := 3

/-- Python positional-call binding: a call with more positional arguments than
the callee has positional parameters raises `TypeError` before the body runs. -/
def pyCallOk (params : List String) (args : Nat) : Bool :=
  args ≤ params.length

/-- Outcomes of the external calls of one `_provision_one` run:
`create_instance` (its success dict gives `(instance_hash, crn_url)`),
`wait_for_allocation` (`(vm_ipv4, ssh_port)`), `lookup_subdomain`, and what
`prepare_vm` would report were the call itself valid. -/
structure ProvisionEnv where
  createResult : Option (String × String)
  allocResult : Option (String × Nat)
  subdomain : Option String
  prepareOk : Bool

/-- `cursor.lastrowid` of the placeholder INSERT: AUTOINCREMENT, a fresh id
strictly greater than every existing id. -/
def freshId (rows : List PoolRow) : Nat :=
  (rows.map (fun r => r.id)).foldr max 0 + 1

/-- The placeholder row:
`VALUES ('pending', '', '', '', 22, ?, 'provisioning')`. -/
def placeholderRow (id now : Nat) : PoolRow :=
  { id := id, instance_hash := "pending", vm_ip := "", vm_url := "", crn_url := "",
    ssh_port := 22, created_at := now, claimed_at := none, agent_id := none,
    status := .provisioning }

/-- `UPDATE vm_pool SET status=? WHERE id=?`. -/
def setStatus (rows : List PoolRow) (id : Nat) (st : PoolStatus) : List PoolRow :=
  rows.map (fun r => if r.id = id then { r with status := st } else r)

/-- `_provision_one`: insert the `provisioning` placeholder, then run
create → allocate → subdomain lookup → `prepare_vm(vm_ip, ssh_port, fqdn)`;
on success fill the row and flip it to `warm`, on any failure (the `except`
block) flip it to `failed`.  The `prepare_vm` call passes 3 positional
arguments against a 2-parameter signature, so its binding is checked with
`pyCallOk` first: an invalid binding raises `TypeError`, caught by the same
`except` block. -/
def provision_one (rows : List PoolRow) (now : Nat) (env : ProvisionEnv) :
    List PoolRow :=
  let pid := freshId rows
  let rows1 := rows ++ [placeholderRow pid now]
  match env.createResult with
  | none => setStatus rows1 pid .failed
  | some (ihash, curl) =>
    match env.allocResult with
    | none => setStatus rows1 pid .failed
    | some (ip, port) =>
      match env.subdomain with
      | none => setStatus rows1 pid .failed
      | some sub =>
        if pyCallOk prepare_vm_params provision_prepare_vm_args then
          if env.prepareOk then
            rows1.map (fun r =>
              if r.id = pid then
                { r with
                  instance_hash := ihash
                  vm_ip := ip
                  vm_url := "https://" ++ sub ++ ".2n6.me"
                  crn_url := curl
                  ssh_port := port
                  status := .warm }
              else r)
          else setStatus rows1 pid .failed
        else setStatus rows1 pid .failed

/-- Pool size configuration (`min_size`, `max_size`). -/
structure PoolCfg where
  minSize : Nat
  maxSize : Nat
deriving DecidableEq, Repr

/-- `_replenish_once`: `needed = min_size - available - provisioning`,
`can_create = max_size - total`, `to_create = min(needed, can_create)`; return
unchanged if `to_create <= 0`, else run `to_create` provisions (the
semaphore-bounded concurrent batch is modelled sequentially - all row
mutations are serialized through the single DB connection and the final
statuses do not depend on interleaving). -/
def replenish_once (cfg : PoolCfg) (rows : List PoolRow) (now : Nat)
    (envs : Nat → ProvisionEnv) : List PoolRow :=
  let available := rows.countP (fun r => r.status = .warm)
  let provisioning := rows.countP (fun r => r.status = .provisioning)
  let total := rows.length
  let needed : Int := (cfg.minSize : Int) - available - provisioning
  let canCreate : Int := (cfg.maxSize : Int) - total
  let toCreate := min needed canCreate
  if toCreate ≤ 0 then rows
  else (List.range toCreate.toNat).foldl
    (fun acc i => provision_one acc now (envs i)) rows

/-! ### Pool lemmas -/

lemma le_foldr_max (l : List Nat) (x : Nat) (hx : x ∈ l) : x ≤ l.foldr max 0 := by
  induction l with
  | nil => cases hx
  | cons y rest ih =>
    rcases List.mem_cons.1 hx with rfl | hx'
    · exact le_max_left _ _
    · exact le_trans (ih hx') (le_max_right _ _)

lemma freshId_not_mem (rows : List PoolRow) (r : PoolRow) (hr : r ∈ rows) :
    r.id ≠ freshId rows := by
  have : r.id ≤ (rows.map (fun r => r.id)).foldr max 0 :=
    le_foldr_max _ _ (List.mem_map.2 ⟨r, hr, rfl⟩)
  unfold freshId
  omega

lemma map_update_fresh (g : PoolRow → PoolRow) (rows : List PoolRow) (ph : PoolRow)
    (hno : ∀ r ∈ rows, r.id ≠ ph.id) :
    (rows ++ [ph]).map (fun r => if r.id = ph.id then g r else r) = rows ++ [g ph] := by
  rw [List.map_append]
  congr 1
  · conv_rhs => rw [← List.map_id rows]
    apply List.map_congr_left
    intro r hr
    rw [if_neg (hno r hr)]
    rfl
  · simp

lemma provision_one_failed (rows : List PoolRow) (now : Nat) (env : ProvisionEnv) :
    provision_one rows now env =
      rows ++ [{ placeholderRow (freshId rows) now with status := PoolStatus.failed }] := by
  have hno : ∀ r ∈ rows, r.id ≠ (placeholderRow (freshId rows) now).id :=
    fun r hr => freshId_not_mem rows r hr
  have hset : setStatus (rows ++ [placeholderRow (freshId rows) now]) (freshId rows)
      PoolStatus.failed =
      rows ++ [{ placeholderRow (freshId rows) now with status := PoolStatus.failed }] := by
    unfold setStatus
    exact map_update_fresh (fun r => { r with status := PoolStatus.failed }) rows _ hno
  unfold provision_one
  cases hc : env.createResult with
  | none => exact hset
  | some pr =>
    obtain ⟨ihash, curl⟩ := pr
    cases ha : env.allocResult with
    | none => exact hset
    | some pa =>
      obtain ⟨ip, port⟩ := pa
      cases hsub : env.subdomain with
      | none => exact hset
      | some sub =>
        exact hset

lemma provision_one_length (rows : List PoolRow) (now : Nat) (env : ProvisionEnv) :
    (provision_one rows now env).length = rows.length + 1 := by
  rw [provision_one_failed]
  simp

lemma provision_one_countP_warm (rows : List PoolRow) (now : Nat) (env : ProvisionEnv) :
    (provision_one rows now env).countP (fun r => r.status = PoolStatus.warm)
      = rows.countP (fun r => r.status = PoolStatus.warm) := by
  rw [provision_one_failed, List.countP_append]
  simp

lemma provision_one_countP_prov (rows : List PoolRow) (now : Nat) (env : ProvisionEnv) :
    (provision_one rows now env).countP (fun r => r.status = PoolStatus.provisioning)
      = rows.countP (fun r => r.status = PoolStatus.provisioning) := by
  rw [provision_one_failed, List.countP_append]
  simp

lemma foldl_provision_spec (k : Nat) (rows : List PoolRow) (now : Nat)
    (envs : Nat → ProvisionEnv) :
    ((List.range k).foldl (fun acc i => provision_one acc now (envs i)) rows).length
      = rows.length + k ∧
    ((List.range k).foldl (fun acc i => provision_one acc now (envs i)) rows).countP
      (fun r => r.status = PoolStatus.warm)
      = rows.countP (fun r => r.status = PoolStatus.warm) ∧
    ((List.range k).foldl (fun acc i => provision_one acc now (envs i)) rows).countP
      (fun r => r.status = PoolStatus.provisioning)
      = rows.countP (fun r => r.status = PoolStatus.provisioning) := by
  induction k with
  | zero => simp
  | succ m ih =>
    obtain ⟨ih1, ih2, ih3⟩ := ih
    rw [List.range_succ, List.foldl_append]
    refine ⟨?_, ?_, ?_⟩
    · simp only [List.foldl_cons, List.foldl_nil, provision_one_length, ih1]
      omega
    · simp only [List.foldl_cons, List.foldl_nil, provision_one_countP_warm, ih2]
    · simp only [List.foldl_cons, List.foldl_nil, provision_one_countP_prov, ih3]

lemma countP_disjoint_le_length (l : List PoolRow) :
    l.countP (fun r => r.status = PoolStatus.warm)
      + l.countP (fun r => r.status = PoolStatus.provisioning) ≤ l.length := by
  induction l with
  | nil => simp
  | cons r rest ih =>
    simp only [List.countP_cons, List.length_cons]
    cases hs : r.status <;> simp [hs] <;> omega

/-! ### Lemmas about `argminCreated` and `claim` -/

lemma argminCreated_eq_none_iff (l : List PoolRow) :
    argminCreated l = none ↔ l = [] := by
  cases l with
  | nil => simp [argminCreated]
  | cons r rest =>
    simp only [argminCreated]
    constructor
    · intro h
      exfalso
      cases h2 : argminCreated rest with
      | none =>
        simp only [h2] at h
        exact Option.noConfusion h
      | some m' =>
        simp only [h2] at h
        by_cases hle : r.created_at ≤ m'.created_at
        · rw [if_pos hle] at h
          exact Option.noConfusion h
        · rw [if_neg hle] at h
          exact Option.noConfusion h
    · intro h
      cases h

lemma argminCreated_mem (l : List PoolRow) (m : PoolRow)
    (h : argminCreated l = some m) : m ∈ l := by
  induction l generalizing m with
  | nil => cases h
  | cons r rest ih =>
    simp only [argminCreated] at h
    cases hrec : argminCreated rest with
    | none =>
      simp only [hrec] at h
      injection h with h
      exact List.mem_cons.2 (Or.inl h.symm)
    | some m' =>
      simp only [hrec] at h
      by_cases hle : r.created_at ≤ m'.created_at
      · rw [if_pos hle] at h
        injection h with h
        exact List.mem_cons.2 (Or.inl h.symm)
      · rw [if_neg hle] at h
        injection h with h
        exact List.mem_cons.2 (Or.inr (h ▸ ih m' hrec))

lemma argminCreated_le (l : List PoolRow) (m : PoolRow)
    (h : argminCreated l = some m) : ∀ x ∈ l, m.created_at ≤ x.created_at := by
  induction l generalizing m with
  | nil => cases h
  | cons r rest ih =>
    simp only [argminCreated] at h
    cases hrec : argminCreated rest with
    | none =>
      have hrest : rest = [] := (argminCreated_eq_none_iff rest).1 hrec
      simp only [hrec] at h
      injection h with h
      subst hrest
      intro x hx
      rcases List.mem_singleton.1 hx with rfl
      rw [← h]
    | some m' =>
      simp only [hrec] at h
      intro x hx
      by_cases hle : r.created_at ≤ m'.created_at
      · rw [if_pos hle] at h
        injection h with h
        subst h
        rcases List.mem_cons.1 hx with rfl | hx'
        · exact le_refl _
        · exact le_trans hle (ih m' hrec x hx')
      · rw [if_neg hle] at h
        injection h with h
        subst h
        rcases List.mem_cons.1 hx with rfl | hx'
        · omega
        · exact ih m' hrec x hx'

/-- `claim()` returns `None` whenever no row is `warm`. -/
lemma claim_none_of_no_warm (rows : List PoolRow) (now : Nat)
    (h : rows.countP (fun r => r.status = PoolStatus.warm) = 0) :
    claim rows now = (none, rows) := by
  have hfil : rows.filter (fun r => r.status = PoolStatus.warm) = [] := by
    rw [List.countP_eq_length_filter] at h
    exact List.length_eq_zero.1 h
  unfold claim
  rw [hfil]
  rfl

/-! ### Concrete pool stores for counterexamples and witnesses -/

/-- A warm row with id and `created_at` both `i`. -/
def warmRow (i : Nat) : PoolRow :=
  { id := i, instance_hash := "wh", vm_ip := "10.0.0.1",
    vm_url := "https://w.2n6.me", crn_url := "https://crn.example",
    ssh_port := 22, created_at := i, claimed_at := none, agent_id := none,
    status := .warm }

/-- Three warm rows: a store already above `maxSize = 2`. -/
def poolRows3 : List PoolRow := [warmRow 1, warmRow 2, warmRow 3]

/-- A provision run whose very first external call fails. -/
def envNoop : ProvisionEnv :=
  { createResult := none, allocResult := none, subdomain := none, prepareOk := false }

/-- A `claimed` row (interrupted deployment). -/
def rowClaimed : PoolRow :=
  { id := 1, instance_hash := "ch", vm_ip := "10.0.0.2",
    vm_url := "https://c.2n6.me", crn_url := "https://crn.example",
    ssh_port := 22, created_at := 10, claimed_at := some 50, agent_id := some 7,
    status := .claimed }

/-- A `provisioning` row (unknown partial state). -/
def rowProv : PoolRow :=
  { id := 2, instance_hash := "pending", vm_ip := "", vm_url := "", crn_url := "",
    ssh_port := 22, created_at := 11, claimed_at := none, agent_id := none,
    status := .provisioning }

end Baal

/-- C2 counterexample: a pool state that already violates the bound — three
`warm` rows with `maxSize = 2`, `minSize = 0` — is left unchanged by a
completed replenish cycle (`to_create = min(-3, -1) ≤ 0`), so afterwards
`warm + provisioning = 3 > maxSize`, refuting the claim as universally
quantified over every pool state. -/
theorem Baal.replenish_size_counterexample :
    Baal.replenish_once ⟨0, 2⟩ Baal.poolRows3 0 (fun _ => Baal.envNoop)
      = Baal.poolRows3 ∧
    ¬ ((Baal.replenish_once ⟨0, 2⟩ Baal.poolRows3 0 (fun _ => Baal.envNoop)).countP
          (fun r => r.status = Baal.PoolStatus.warm)
        + (Baal.replenish_once ⟨0, 2⟩ Baal.poolRows3 0 (fun _ => Baal.envNoop)).countP
          (fun r => r.status = Baal.PoolStatus.provisioning)
        ≤ (⟨0, 2⟩ : Baal.PoolCfg).maxSize) := by
  constructor
  · rfl
  · decide

/-- C2 (amended): provided `warm + provisioning ≤ maxSize` held before the
cycle, it still holds after the cycle completes; and the cycle inserts exactly
`min(minSize − warm − provisioning, maxSize − total)` rows (clamped at 0),
never more. -/
theorem Baal.replenish_size_bound (cfg : Baal.PoolCfg) (rows : List Baal.PoolRow)
    (now : Nat) (envs : Nat → Baal.ProvisionEnv)
    (hpre : rows.countP (fun r => r.status = Baal.PoolStatus.warm)
      + rows.countP (fun r => r.status = Baal.PoolStatus.provisioning) ≤ cfg.maxSize) :
    ((Baal.replenish_once cfg rows now envs).countP
        (fun r => r.status = Baal.PoolStatus.warm)
      + (Baal.replenish_once cfg rows now envs).countP
        (fun r => r.status = Baal.PoolStatus.provisioning) ≤ cfg.maxSize) ∧
    (Baal.replenish_once cfg rows now envs).length
      = rows.length
        + (min ((cfg.minSize : Int)
              - rows.countP (fun r => r.status = Baal.PoolStatus.warm)
              - rows.countP (fun r => r.status = Baal.PoolStatus.provisioning))
            ((cfg.maxSize : Int) - rows.length)).toNat := by
  have hrepl : Baal.replenish_once cfg rows now envs =
      if (min ((cfg.minSize : Int)
            - rows.countP (fun r => r.status = Baal.PoolStatus.warm)
            - rows.countP (fun r => r.status = Baal.PoolStatus.provisioning))
          ((cfg.maxSize : Int) - rows.length)) ≤ 0 then rows
      else (List.range (min ((cfg.minSize : Int)
            - rows.countP (fun r => r.status = Baal.PoolStatus.warm)
            - rows.countP (fun r => r.status = Baal.PoolStatus.provisioning))
          ((cfg.maxSize : Int) - rows.length)).toNat).foldl
        (fun acc i => Baal.provision_one acc now (envs i)) rows := rfl
  rw [hrepl]
  by_cases h : (min ((cfg.minSize : Int)
      - rows.countP (fun r => r.status = Baal.PoolStatus.warm)
      - rows.countP (fun r => r.status = Baal.PoolStatus.provisioning))
    ((cfg.maxSize : Int) - rows.length)) ≤ 0
  · rw [if_pos h]
    refine ⟨hpre, ?_⟩
    rw [Int.toNat_of_nonpos h]
    omega
  · rw [if_neg h]
    obtain ⟨hlen, hw, hp⟩ := Baal.foldl_provision_spec
      (min ((cfg.minSize : Int)
          - rows.countP (fun r => r.status = Baal.PoolStatus.warm)
          - rows.countP (fun r => r.status = Baal.PoolStatus.provisioning))
        ((cfg.maxSize : Int) - rows.length)).toNat rows now envs
    exact ⟨by rw [hw, hp]; exact hpre, hlen⟩

/-- Witness for C2 (amended) at a concrete input: `min=2, max=4`, empty store —
the cycle inserts exactly 2 rows and the bound holds. -/
theorem Baal.replenish_size_bound_witness :
    ((Baal.replenish_once ⟨2, 4⟩ [] 0 (fun _ => Baal.envNoop)).countP
        (fun r => r.status = Baal.PoolStatus.warm)
      + (Baal.replenish_once ⟨2, 4⟩ [] 0 (fun _ => Baal.envNoop)).countP
        (fun r => r.status = Baal.PoolStatus.provisioning)
      ≤ (⟨2, 4⟩ : Baal.PoolCfg).maxSize) ∧
    (Baal.replenish_once ⟨2, 4⟩ [] 0 (fun _ => Baal.envNoop)).length
      = ([] : List Baal.PoolRow).length
        + (min (((⟨2, 4⟩ : Baal.PoolCfg).minSize : Int)
              - ([] : List Baal.PoolRow).countP (fun r => r.status = Baal.PoolStatus.warm)
              - ([] : List Baal.PoolRow).countP
                  (fun r => r.status = Baal.PoolStatus.provisioning))
            (((⟨2, 4⟩ : Baal.PoolCfg).maxSize : Int)
              - ([] : List Baal.PoolRow).length)).toNat :=
  Baal.replenish_size_bound ⟨2, 4⟩ [] 0 (fun _ => Baal.envNoop) (by decide)

/-- C3: `claim()` returns `None` (leaving the store unchanged) when no row is
`warm`; otherwise it returns a `PooledVM` built from a `warm` row of minimal
`created_at`, with `claimed_at = now`, and in the new store that row is
`claimed` with `claimed_at = now`; consequently on a store whose only warm row
was just claimed, a subsequent `claim()` returns `None`. -/
theorem Baal.claim_oldest_or_none (rows : List Baal.PoolRow) (now : Nat) :
    (rows.countP (fun r => r.status = Baal.PoolStatus.warm) = 0 →
      Baal.claim rows now = (none, rows)) ∧
    (∀ vm rows', Baal.claim rows now = (some vm, rows') →
      (∃ r ∈ rows, r.status = Baal.PoolStatus.warm ∧ vm.id = r.id ∧
        vm.created_at = r.created_at ∧ vm.claimed_at = some now ∧
        (∀ r' ∈ rows, r'.status = Baal.PoolStatus.warm →
          r.created_at ≤ r'.created_at)) ∧
      (∃ r' ∈ rows', r'.id = vm.id ∧ r'.status = Baal.PoolStatus.claimed ∧
        r'.claimed_at = some now)) ∧
    (rows.countP (fun r => r.status = Baal.PoolStatus.warm) = 1 →
      ∀ now', (Baal.claim (Baal.claim rows now).2 now').1 = none) := by
  refine ⟨fun h => Baal.claim_none_of_no_warm rows now h, ?_, ?_⟩
  · intro vm rows' h
    unfold Baal.claim at h
    cases harg : Baal.argminCreated
        (rows.filter (fun r => r.status = Baal.PoolStatus.warm)) with
    | none =>
      rw [harg] at h
      exact absurd (congrArg Prod.fst h) (by simp)
    | some row =>
      rw [harg] at h
      rw [Prod.mk.injEq] at h
      obtain ⟨h1, h2⟩ := h
      injection h1 with h1
      have hmem := Baal.argminCreated_mem _ _ harg
      have hrow : row ∈ rows ∧ row.status = Baal.PoolStatus.warm := by
        have := List.mem_filter.1 hmem
        exact ⟨this.1, by simpa using this.2⟩
      constructor
      · refine ⟨row, hrow.1, hrow.2, ?_, ?_, ?_, ?_⟩
        · rw [← h1]
        · rw [← h1]
        · rw [← h1]
        · intro r' hr' hw'
          exact Baal.argminCreated_le _ _ harg r'
            (List.mem_filter.2 ⟨hr', by simp [hw']⟩)
      · refine ⟨{ row with status := Baal.PoolStatus.claimed, claimed_at := some now }, ?_, ?_, rfl, rfl⟩
        · rw [← h2]
          refine List.mem_map.2 ⟨row, hrow.1, ?_⟩
          rw [if_pos rfl]
        · rw [← h1]
  · intro hone now'
    have hnew : (Baal.claim rows now).2.countP
        (fun r => r.status = Baal.PoolStatus.warm) = 0 := by
      cases harg : Baal.argminCreated
          (rows.filter (fun r => r.status = Baal.PoolStatus.warm)) with
      | none =>
        exfalso
        have := (Baal.argminCreated_eq_none_iff _).1 harg
        rw [List.countP_eq_length_filter, this] at hone
        simp at hone
      | some row =>
        have hfil : rows.filter (fun r => r.status = Baal.PoolStatus.warm)
            = [row] := by
          rw [List.countP_eq_length_filter] at hone
          obtain ⟨a, ha⟩ := List.length_eq_one.1 hone
          have := Baal.argminCreated_mem _ _ harg
          rw [ha] at this ⊢
          rcases List.mem_singleton.1 this with rfl
          rfl
        have hsnd : (Baal.claim rows now).2 = rows.map (fun r =>
            if r.id = row.id then
              { r with status := Baal.PoolStatus.claimed, claimed_at := some now }
            else r) := by
          unfold Baal.claim
          rw [harg]
        rw [hsnd, List.countP_eq_zero]
        intro x hx
        obtain ⟨r, hr, hfr⟩ := List.mem_map.1 hx
        by_cases hid : r.id = row.id
        · rw [if_pos hid] at hfr
          rw [← hfr]
          simp
        · rw [if_neg hid] at hfr
          subst hfr
          simp only [decide_eq_true_eq]
          intro hw
          have : r ∈ rows.filter (fun r => r.status = Baal.PoolStatus.warm) :=
            List.mem_filter.2 ⟨hr, by simp [hw]⟩
          rw [hfil] at this
          rcases List.mem_singleton.1 this with rfl
          exact hid rfl
    rw [Baal.claim_none_of_no_warm _ now' hnew]

/-- Witness for C3 at a concrete input: a store with exactly one warm row —
after claiming it, a second `claim()` returns `None`. -/
theorem Baal.claim_oldest_or_none_witness :
    (Baal.claim (Baal.claim [Baal.warmRow 5] 100).2 101).1 = none :=
  (Baal.claim_oldest_or_none [Baal.warmRow 5] 100).2.2 (by decide) 101

/-- C4: after pool initialization on a persisted store, there are zero
`claimed` rows and zero `provisioning` rows; every formerly-`claimed` row is
present as `warm` with `claimed_at` and `agent_id` cleared; rows in any other
status are kept unchanged, and nothing else appears. -/
theorem Baal.pool_init_recovery (rows : List Baal.PoolRow) :
    (Baal.poolInit rows).countP (fun r => r.status = Baal.PoolStatus.claimed) = 0 ∧
    (Baal.poolInit rows).countP
      (fun r => r.status = Baal.PoolStatus.provisioning) = 0 ∧
    (∀ r ∈ rows, r.status ≠ Baal.PoolStatus.claimed →
      r.status ≠ Baal.PoolStatus.provisioning → r ∈ Baal.poolInit rows) ∧
    (∀ r ∈ rows, r.status = Baal.PoolStatus.claimed →
      { r with status := Baal.PoolStatus.warm, claimed_at := none, agent_id := none } ∈ Baal.poolInit rows) ∧
    (∀ r' ∈ Baal.poolInit rows, r' ∈ rows ∨
      ∃ r ∈ rows, r.status = Baal.PoolStatus.claimed ∧
        r' = { r with status := Baal.PoolStatus.warm, claimed_at := none, agent_id := none }) := by
  refine ⟨?_, ?_, ?_, ?_, ?_⟩
  · rw [List.countP_eq_zero]
    intro r' hr'
    obtain ⟨hmem, _⟩ := List.mem_filter.1 hr'
    obtain ⟨r, _, hfr⟩ := List.mem_map.1 hmem
    by_cases hc : r.status = Baal.PoolStatus.claimed
    · rw [if_pos hc] at hfr
      rw [← hfr]
      simp
    · rw [if_neg hc] at hfr
      subst hfr
      simpa using hc
  · rw [List.countP_eq_zero]
    intro r' hr'
    have := (List.mem_filter.1 hr').2
    simpa using this
  · intro r hr hnc hnp
    apply List.mem_filter.2
    refine ⟨List.mem_map.2 ⟨r, hr, by rw [if_neg hnc]⟩, by simpa using hnp⟩
  · intro r hr hc
    apply List.mem_filter.2
    refine ⟨List.mem_map.2 ⟨r, hr, by rw [if_pos hc]⟩, by simp⟩
  · intro r' hr'
    obtain ⟨hmem, _⟩ := List.mem_filter.1 hr'
    obtain ⟨r, hr, hfr⟩ := List.mem_map.1 hmem
    by_cases hc : r.status = Baal.PoolStatus.claimed
    · rw [if_pos hc] at hfr
      exact Or.inr ⟨r, hr, hc, hfr.symm⟩
    · rw [if_neg hc] at hfr
      exact Or.inl (hfr ▸ hr)

/-- Witness for C4 at a concrete input: the spec's startup-recovery scenario —
one `claimed` and one `provisioning` row; after initialization zero of each
remain, and the claimed row is present as `warm` with fields cleared. -/
theorem Baal.pool_init_recovery_witness :
    (Baal.poolInit [Baal.rowClaimed, Baal.rowProv]).countP
      (fun r => r.status = Baal.PoolStatus.claimed) = 0 ∧
    (Baal.poolInit [Baal.rowClaimed, Baal.rowProv]).countP
      (fun r => r.status = Baal.PoolStatus.provisioning) = 0 ∧
    { Baal.rowClaimed with status := Baal.PoolStatus.warm, claimed_at := none, agent_id := none } ∈ Baal.poolInit [Baal.rowClaimed, Baal.rowProv] :=
  ⟨(Baal.pool_init_recovery [Baal.rowClaimed, Baal.rowProv]).1,
    (Baal.pool_init_recovery [Baal.rowClaimed, Baal.rowProv]).2.1,
    (Baal.pool_init_recovery [Baal.rowClaimed, Baal.rowProv]).2.2.2.1
      Baal.rowClaimed (by simp) rfl⟩

/-- C10: the `VMPool._provision_one` call
`self.deployer.prepare_vm(vm_ip, ssh_port, fqdn)` passes 3 positional
arguments while `AlephDeployer.prepare_vm` (the deployer `VMPool` is
constructed with in `baal/main.py`) declares only `(vm_ip, ssh_port)`, so the
binding is invalid (`TypeError`); consequently every provisioning attempt
appends a row that ends `failed` — whatever the outcomes of the external calls,
even when creation, allocation, subdomain lookup succeed and the environment
preparation itself would succeed — and the number of `warm` rows never
increases through the replenish path. -/
theorem Baal.provision_prepare_arity_mismatch (rows : List Baal.PoolRow)
    (now : Nat) (env : Baal.ProvisionEnv) :
    Baal.pyCallOk Baal.prepare_vm_params Baal.provision_prepare_vm_args = false ∧
    (∃ x, Baal.provision_one rows now env = rows ++ [x] ∧
      x.status = Baal.PoolStatus.failed) ∧
    (Baal.provision_one rows now env).countP
        (fun r => r.status = Baal.PoolStatus.warm)
      = rows.countP (fun r => r.status = Baal.PoolStatus.warm) :=
  ⟨by decide, ⟨_, Baal.provision_one_failed rows now env, rfl⟩,
    Baal.provision_one_countP_warm rows now env⟩

/-- C7 counterexample: on the fetched list `[nodeA, nodeB]` — identical live
telemetry, raw reputations `1` and `2`, hence equal composite score `1` — the
returned candidate order is `[nodeA, nodeB]` (fetch order, lower raw
reputation first), so the list is not ordered with ties broken by raw
reputation, refuting the claim at this concrete input. -/
theorem Baal.crn_sort_tie_counterexample :
    ((Baal.get_available_crns [Baal.nodeA, Baal.nodeB] [] 0).1.map
        (fun c => (c.composite, c.score)) = [((1 : ℚ), (1 : ℚ)), (1, 2)]) ∧
    ¬ ((Baal.get_available_crns [Baal.nodeA, Baal.nodeB] [] 0).1.Pairwise
        (fun a b => b.composite < a.composite ∨
          (b.composite = a.composite ∧ b.score ≤ a.score))) := by
  have hsA : (Baal.scoreNode Baal.nodeA Baal.usageTie).score = 1 := by
    simp [Baal.scoreNode, Baal.nodeA]
  have hsB : (Baal.scoreNode Baal.nodeB Baal.usageTie).score = 2 := by
    simp [Baal.scoreNode, Baal.nodeB]
  constructor
  · rw [Baal.crns_nodeA_nodeB]
    simp [Baal.composite_nodeA, Baal.composite_nodeB, hsA, hsB]
  · rw [Baal.crns_nodeA_nodeB]
    intro hpw
    have h := (List.pairwise_cons.1 hpw).1 _ (List.mem_singleton.2 rfl)
    rw [Baal.composite_nodeA, Baal.composite_nodeB, hsA, hsB] at h
    rcases h with h | ⟨_, h⟩
    · exact lt_irrefl _ h
    · norm_num at h

/-- C7 (amended): each viable node's composite score equals
`0.40·min(max(score,0),1) + 0.35·min(memAvailGB/64,1) + 0.25·(1 − min(load5/cpuCount,1))`
(for `cpuCount ≥ 1`; the code divides by `max(cpuCount,1)`), and the returned
candidate list is sorted in descending order of composite score; candidates
with equal composite score keep their fetch order (Python's sort is stable),
they are not reordered by raw reputation. -/
theorem Baal.crn_scoring_formula_sorted (nodes : List Baal.RawNode)
    (bl : Baal.Blacklist) (now : Nat) :
    (∀ n ∈ nodes, ∀ u, n.usage = some u → 1 ≤ u.cpuCount →
      (Baal.scoreNode n u).composite
        = (40 / 100 : ℚ) * min (max n.score 0) 1
          + (35 / 100) * min (u.availableKB / 1048576 / 64) 1
          + (25 / 100) * (1 - min (u.load5 / (u.cpuCount : ℚ)) 1)) ∧
    Baal.SortedByComposite (Baal.get_available_crns nodes bl now).1 ∧
    ∀ q : ℚ,
      ((Baal.get_available_crns nodes bl now).1.filter (fun c => c.composite = q))
        = ((Baal.dropBlacklisted now (Baal.prune_blacklist bl now)
            (nodes.filterMap Baal.screenNode)).1.filter (fun c => c.composite = q)) := by
  refine ⟨?_, ?_, ?_⟩
  · intro n _ u _ hcpu
    simp only [Baal.scoreNode, Nat.max_eq_left hcpu]
  · rw [Baal.get_available_crns]
    exact Baal.sortedByComposite_sortDesc _
  · intro q
    rw [Baal.get_available_crns]
    exact Baal.filter_sortDesc q _

/-- Witness for C7 (amended) at a concrete input: the composite formula
evaluated on `nodeB`. -/
theorem Baal.crn_scoring_formula_sorted_witness :
    (Baal.scoreNode Baal.nodeB Baal.usageTie).composite
      = (40 / 100 : ℚ) * min (max Baal.nodeB.score 0) 1
        + (35 / 100) * min (Baal.usageTie.availableKB / 1048576 / 64) 1
        + (25 / 100) * (1 - min (Baal.usageTie.load5 / (Baal.usageTie.cpuCount : ℚ)) 1) :=
  (Baal.crn_scoring_formula_sorted [Baal.nodeB] [] 0).1 Baal.nodeB
    (List.mem_singleton.2 rfl) Baal.usageTie rfl (by decide)

/-- C8: every candidate returned by `get_available_crns` has an endpoint that
is not currently blacklisted, and comes from a fetched node that passes the
viability filter: virtualization (`qemu_support`) flag set, live `active`
usage telemetry, and reputation `score ≥ 0.3`. -/
theorem Baal.crn_candidates_viable_unblacklisted (nodes : List Baal.RawNode)
    (bl : Baal.Blacklist) (now : Nat) (hbl : Baal.BlWF bl) :
    ∀ c ∈ (Baal.get_available_crns nodes bl now).1,
      (Baal.is_blacklisted bl now c.url).1 = false ∧
      ∃ n ∈ nodes, ∃ u, n.usage = some u ∧ n.qemuSupport = true ∧
        u.active = true ∧ (3 / 10 : ℚ) ≤ n.score ∧ c = Baal.scoreNode n u := by
  intro c hc
  rw [Baal.get_available_crns] at hc
  simp only at hc
  rw [Baal.mem_sortDesc] at hc
  rw [Baal.dropBlacklisted_no_purge now _ _ (Baal.mem_prune bl now)] at hc
  simp only at hc
  obtain ⟨hmem, hflt⟩ := List.mem_filter.1 hc
  refine ⟨?_, ?_⟩
  · rw [← Baal.is_blacklisted_prune bl now c.url hbl]
    cases h : (Baal.is_blacklisted (Baal.prune_blacklist bl now) now c.url).1
    · rfl
    · rw [h] at hflt
      simp at hflt
  · obtain ⟨n, hn, hsn⟩ := List.mem_filterMap.1 hmem
    rw [Baal.screenNode_some_iff] at hsn
    obtain ⟨_, _, hq, u, hu, hact, hsc, hc'⟩ := hsn
    exact ⟨n, hn, u, hu, hq, hact, hsc, hc'⟩

/-- Witness for C8 at a concrete input: the single viable node `nodeB` with an
empty blacklist. -/
theorem Baal.crn_candidates_viable_unblacklisted_witness :
    (Baal.is_blacklisted [] 0 (Baal.scoreNode Baal.nodeB Baal.usageTie).url).1 = false ∧
    ∃ n ∈ [Baal.nodeB], ∃ u, n.usage = some u ∧ n.qemuSupport = true ∧
      u.active = true ∧ (3 / 10 : ℚ) ≤ n.score ∧
      Baal.scoreNode Baal.nodeB Baal.usageTie = Baal.scoreNode n u :=
  Baal.crn_candidates_viable_unblacklisted [Baal.nodeB] [] 0 (by simp [Baal.BlWF])
    (Baal.scoreNode Baal.nodeB Baal.usageTie)
    (by rw [Baal.crns_nodeB_only]; exact List.mem_singleton.2 rfl)

/-- C9: immediately after `_blacklist_crn(e, reason)` at instant `now`,
`_is_blacklisted(e)` at `now` returns `True`; at any instant `now'` at least
the 600-second TTL after the add, `_is_blacklisted(e)` returns `False` and the
entry for `e` is purged from the blacklist on that lookup. -/
theorem Baal.blacklist_add_ttl (bl : Baal.Blacklist) (now : Nat) (e : String) :
    (Baal.is_blacklisted (Baal.blacklist_crn bl now e) now e).1 = true ∧
    ∀ now', now + Baal.CRN_BLACKLIST_TTL ≤ now' →
      (Baal.is_blacklisted (Baal.blacklist_crn bl now e) now' e).1 = false ∧
      Baal.dictGet (Baal.is_blacklisted (Baal.blacklist_crn bl now e) now' e).2 e = none := by
  constructor
  · simp [Baal.is_blacklisted, Baal.blacklist_crn, Baal.dictGet_dictSet_self,
      Baal.CRN_BLACKLIST_TTL]
  · intro now' h
    have hget := Baal.dictGet_dictSet_self bl e (now + Baal.CRN_BLACKLIST_TTL)
    constructor
    · simp [Baal.is_blacklisted, Baal.blacklist_crn, hget, h]
    · simp only [Baal.is_blacklisted, Baal.blacklist_crn, hget, h, if_pos]
      exact Baal.dictGet_filter_ne _ e

/-- Witness for C9 at a concrete input: add endpoint "https://crn1" at instant
5; blacklisted at 5, clear and purged at 605. -/
theorem Baal.blacklist_add_ttl_witness :
    (Baal.is_blacklisted (Baal.blacklist_crn [] 5 "https://crn1") 5 "https://crn1").1 = true ∧
      (Baal.is_blacklisted (Baal.blacklist_crn [] 5 "https://crn1") 605 "https://crn1").1 = false := by
  refine ⟨(Baal.blacklist_add_ttl [] 5 "https://crn1").1, ?_⟩
  exact ((Baal.blacklist_add_ttl [] 5 "https://crn1").2 605 (by decide)).1


/-- C1: in every `create_instance` run in which the network creation succeeded
with a non-empty `instance_hash` but all 3 node-start attempts fail (no
attempt returns HTTP 200), the returned dict has `status = "error"` and still
carries that `instance_hash`, and the selected CRN's endpoint is blacklisted. -/
theorem Baal.create_instance_start_fail_keeps_hash (env : Baal.CreateEnv)
    (bl : Baal.Blacklist) (now : Nat) (c : Baal.Crn) (url : String) (h : String)
    (hsdk : env.sdkAvailable = true) (hacct : env.hasAccount = true)
    (hsel : (Baal.probeSelect env.probe now bl (env.crns.take 5)).1 = some (c, url))
    (hcr : env.createResult = some h) (hne : h ≠ "")
    (hfail : ∀ i, i < Baal.MAX_START_ATTEMPTS → env.startStatus i ≠ some 200) :
    (Baal.create_instance env bl now).1.status = "error" ∧
    (Baal.create_instance env bl now).1.instance_hash = some h ∧
    (Baal.is_blacklisted (Baal.create_instance env bl now).2 now url).1 = true := by
  have hnemp : env.crns.isEmpty = false := by
    cases hcrns : env.crns with
    | nil => rw [hcrns] at hsel; simp [Baal.probeSelect] at hsel
    | cons _ _ => simp
  have hany : ((List.range Baal.MAX_START_ATTEMPTS).any
      (fun i => env.startStatus i == some 200)) = false := by
    rw [List.any_eq_false]
    intro i hi
    have hne2 := hfail i (List.mem_range.1 hi)
    simp only [Bool.not_eq_true]
    exact beq_eq_false_iff_ne.2 hne2
  rw [Baal.create_instance]
  rw [if_neg (by simp [hsdk]), if_neg (by simp [hacct]), if_neg (by simp [hnemp])]
  simp only [hsel, hcr, hany]
  rw [if_neg (by simp), if_pos hne]
  exact ⟨rfl, rfl, Baal.is_blacklisted_after_add _ now url⟩

/-- Witness for C1 at a concrete input: `envC1` (creation succeeds with hash
"abc123", all start attempts return 503) from an empty blacklist at instant 0. -/
theorem Baal.create_instance_start_fail_keeps_hash_witness :
    (Baal.create_instance Baal.envC1 [] 0).1.status = "error" ∧
    (Baal.create_instance Baal.envC1 [] 0).1.instance_hash = some "abc123" ∧
    (Baal.is_blacklisted (Baal.create_instance Baal.envC1 [] 0).2 0
      (Baal.normalizeUrl Baal.crnX.url)).1 = true :=
  Baal.create_instance_start_fail_keeps_hash Baal.envC1 [] 0 Baal.crnX
    (Baal.normalizeUrl Baal.crnX.url) "abc123" rfl rfl
    (by simp [Baal.probeSelect, Baal.envC1, Baal.crnX])
    rfl (by simp) (fun i _ => by simp [Baal.envC1])

/-- C5: (a) when every allocation check in range yields no IP,
`wait_for_allocation` returns the timeout sentinel `none` (not an error or
exception) after exactly `retries` check attempts, each followed by a sleep of
exactly `delay`; (b) it returns `some` allocation as soon as any check yields
an IP: if attempt `k` is the first to succeed, the result is that allocation
and exactly `k+1` checks ran. -/
theorem Baal.wait_for_allocation_timeout_and_success
    (check : Nat → Option Baal.Alloc) (retries delay : Nat) :
    ((∀ i, i < retries → check i = none) →
      (Baal.wait_for_allocation check retries delay).1 = none ∧
      ((Baal.wait_for_allocation check retries delay).2.countP Baal.isCheckEv)
        = retries ∧
      ((Baal.wait_for_allocation check retries delay).2.countP Baal.isSleepEv)
        = retries ∧
      (∀ d, Baal.PollEvent.sleep d ∈ (Baal.wait_for_allocation check retries delay).2 →
        d = delay)) ∧
    (∀ k r, k < retries → check k = some r → (∀ i, i < k → check i = none) →
      (Baal.wait_for_allocation check retries delay).1 = some r ∧
      ((Baal.wait_for_allocation check retries delay).2.countP Baal.isCheckEv)
        = k + 1) := by
  constructor
  · intro hall
    exact Baal.wait_go_all_none check delay retries 0 (fun i h1 h2 => hall i (by omega))
  · intro k r hk hs hnone
    have hgo := Baal.wait_go_first_success check delay retries 0 k r (by omega)
      (by omega) hs (fun i h1 h2 => hnone i h2)
    simpa using hgo

/-- Witness for C5 at a concrete input: every check empty, `retries = 5`,
`delay = 7` — timeout sentinel after exactly 5 checks, all sleeps 7. -/
theorem Baal.wait_for_allocation_timeout_and_success_witness :
    (Baal.wait_for_allocation (fun _ => none) 5 7).1 = none ∧
    ((Baal.wait_for_allocation (fun _ => none) 5 7).2.countP Baal.isCheckEv) = 5 ∧
    ((Baal.wait_for_allocation (fun _ => none) 5 7).2.countP Baal.isSleepEv) = 5 ∧
    (∀ d, Baal.PollEvent.sleep d ∈ (Baal.wait_for_allocation (fun _ => none) 5 7).2 →
      d = 7) :=
  (Baal.wait_for_allocation_timeout_and_success (fun _ => none) 5 7).1
    (fun i _ => rfl)

/-- C6: during `wait_for_allocation`, the "start" notification to the node is
re-issued exactly on the polling attempts whose (0-based) index is a positive
multiple of 4 — i.e. every 4th attempt of the loop, and never on the first
attempt (index 0). -/
theorem Baal.wait_renotify_fourth_attempts (check : Nat → Option Baal.Alloc)
    (retries delay a : Nat) :
    Baal.PollEvent.notifyCrn a ∈ (Baal.wait_for_allocation check retries delay).2 ↔
      (a % 4 = 0 ∧ a ≠ 0 ∧
        Baal.PollEvent.checkAlloc a ∈ (Baal.wait_for_allocation check retries delay).2) := by
  rw [Baal.wait_for_allocation, Baal.wait_go_notify_iff]
  constructor
  · rintro ⟨h4, hp, hC⟩
    exact ⟨h4, by omega, hC⟩
  · rintro ⟨h4, hp, hC⟩
    exact ⟨h4, by omega, hC⟩

/-- Witness for C6 at a concrete input: attempt index 4 of a 6-attempt run. -/
theorem Baal.wait_renotify_fourth_attempts_witness :
    Baal.PollEvent.notifyCrn 4 ∈ (Baal.wait_for_allocation (fun _ => none) 6 1).2 ↔
      (4 % 4 = 0 ∧ 4 ≠ 0 ∧
        Baal.PollEvent.checkAlloc 4 ∈ (Baal.wait_for_allocation (fun _ => none) 6 1).2) :=
  Baal.wait_renotify_fourth_attempts (fun _ => none) 6 1 4
